import Mathlib

/-!
Verification of the zone-file parser core (package `zoneparse`): a shallow
embedding of the character-level tokenizer (`Scanner.nextToken`), the record
assembler (`Scanner.Next`), the record classification helpers (`parseClass`,
`parseType`) and the canonical rendering (`Record.String`), translated from
the Go source, together with theorems settling the specification claims.

Modelling conventions:
* The input byte stream is a `List Char`; the Go scanner's one-rune pushback
  (`nextRune`/`nextSize`) is represented by simply leaving the rune at the
  head of the remaining list when the Go code returns without consuming it.
* The two Go transitions that switch state and reprocess the current rune
  without consuming it (comment ending at a newline, `Space` state meeting a
  non-space rune) are inlined with the behaviour of the target state, so that
  the tokenizer is structurally recursive on the input and kernel-evaluable.
* The `Scanner.Next` loop always consumes at least one rune per iteration,
  so it is embedded with an explicit fuel argument; the top-level entry point
  supplies fuel `input.length + 1`, which is never exhausted.
* Go `int64`/`uint32` arithmetic appears only in the TTL field; values are
  modelled as `Int`/`Nat` with the explicit `2 ^ 32` bound of
  `strconv.ParseUint(tok, 10, 32)`.
-/

set_option maxRecDepth 100000

namespace ZoneParse

/-- The nine lexical states of the Go `scannerState` enumeration. -/
inductive SState where
  | Default
  | String
  | StringEscape
  | Paren
  | Comment
  | Space
  | ParenComment
  | ParenString
  | ParenStringEscape
  deriving Repr, DecidableEq

/-- `RecordClass` from the Go source (the numeric values are irrelevant here). -/
inductive RecordClass where
  | UNKNOWN
  | IN
  | CS
  | CH
  | HS
  | any
  deriving Repr, DecidableEq

/-- `RecordClass.String` from the Go source. -/
def RecordClass.toStr : RecordClass → String
  | .IN => "IN"
  | .CS => "CS"
  | .CH => "CH"
  | .HS => "HS"
  | .any => "*"
  | .UNKNOWN => "[UNKNOWN]"

/-- `RecordType` from the Go source. -/
inductive RecordType where
  | UNKNOWN
  | A
  | NS
  | MD
  | MF
  | CNAME
  | SOA
  | MB
  | MG
  | MR
  | NULL
  | WKS
  | PTR
  | HINFO
  | MINFO
  | MX
  | TXT
  | AAAA
  | AFSDB
  | DNSKEY
  | DS
  | LOC
  | NAPTR
  | NSEC3
  | NSEC3PARAM
  | RP
  | RRSIG
  | SPF
  | SRV
  | SSHFP
  deriving Repr, DecidableEq

/-- `RecordType.String` from the Go source. -/
def RecordType.toStr : RecordType → String
  | .A => "A"
  | .NS => "NS"
  | .MD => "MD"
  | .MF => "MF"
  | .CNAME => "CNAME"
  | .SOA => "SOA"
  | .MB => "MB"
  | .MG => "MG"
  | .MR => "MR"
  | .NULL => "NULL"
  | .WKS => "WKS"
  | .PTR => "PTR"
  | .HINFO => "HINFO"
  | .MINFO => "MINFO"
  | .MX => "MX"
  | .TXT => "TXT"
  | .AAAA => "AAAA"
  | .AFSDB => "AFSDB"
  | .DNSKEY => "DNSKEY"
  | .DS => "DS"
  | .LOC => "LOC"
  | .NAPTR => "NAPTR"
  | .NSEC3 => "NSEC3"
  | .NSEC3PARAM => "NSEC3PARAM"
  | .RP => "RP"
  | .RRSIG => "RRSIG"
  | .SPF => "SPF"
  | .SRV => "SRV"
  | .SSHFP => "SSHFP"
  | .UNKNOWN => "[UNKNOWN]"

/-- The `Record` struct from the Go source.  `TimeToLive` is Go `int64`
(signed, so that `-1` can mean "unset"); the Go field `Type` is called
`RType` here because `Type` is a Lean keyword. -/
structure Record where
  DomainName : String
  TimeToLive : Int
  Class : RecordClass
  RType : RecordType
  Data : List String
  Comment : String
  deriving Repr, DecidableEq

/-- A single apostrophe, used to build the Go error message texts. -/
def squote : String := String.mk [Char.ofNat 39]

/-- Message of `errors.New("Unexpected end of input")`. -/
def uneofMsg : String := "Unexpected end of input"

/-- Message of `fmt.Errorf("Unknown Record Class '%s'", token)`. -/
def unknownClassMsg (token : String) : String :=
  "Unknown Record Class " ++ squote ++ token ++ squote

/-- Message of `fmt.Errorf("Unknown Record Type '%s'", token)`. -/
def unknownTypeMsg (token : String) : String :=
  "Unknown Record Type " ++ squote ++ token ++ squote

/-- Message of `fmt.Errorf("Incomplete record at end of file")`. -/
def incompleteMsg : String := "Incomplete record at end of file"

/-- Message of `fmt.Errorf("missing data part for DomainName: %s; Type: %s", ...)`;
`%s` on a `RecordType` uses its `String` method. -/
def missingDataMsg (name : String) (ty : RecordType) : String :=
  "missing data part for DomainName: " ++ name ++ "; Type: " ++ ty.toStr

/-- Fuel-exhaustion marker; unreachable from the top-level entry points. -/
def fuelErr : String := "scanner fuel exhausted"

/-- Go `unicode.IsSpace`: the Unicode White_Space property. -/
def goIsSpace (c : Char) : Bool :=
  c = ' ' || c = '\t' || c = '\n' || c.val = 11 || c.val = 12 || c = '\r' ||
  c.val = 0x85 || c.val = 0xA0 || c.val = 0x1680 ||
  (0x2000 ≤ c.val && c.val ≤ 0x200A) ||
  c.val = 0x2028 || c.val = 0x2029 || c.val = 0x202F ||
  c.val = 0x205F || c.val = 0x3000

/-- First byte of a token, as in Go `token[0]` (tokens are never empty;
the `[]` case is arbitrary). -/
def headChar (s : String) : Char :=
  match s.data with
  | [] => Char.ofNat 0
  | c :: _ => c

/-- Result of one `Scanner.nextToken` call: a token together with the scanner
state and the not-yet-consumed input, the `io.EOF` signal, or a lexical
error. -/
inductive TokenResult where
  | tok (t : String) (st : SState) (rest : List Char)
  | eofR (st : SState)
  | errR (msg : String)
  deriving Repr, DecidableEq

/-- `Scanner.nextToken` from the Go source.  `acc` is the `token` buffer.
Where Go returns without clearing `nextSize`, the rune stays at the head of
the returned remainder.  The two Go branches that switch state and loop
without consuming the rune (`Comment`/`ParenComment` at a newline and
`Space` at a non-space rune) are inlined with the target state's handling of
that rune, keeping the recursion structural. -/
def nextToken : SState → List Char → String → TokenResult
  | st, [], acc =>
    if st = SState.Default || st = SState.Space || st = SState.Comment then
      if acc ≠ "" then .tok acc st [] else .eofR st
    else .errR uneofMsg
  | SState.Default, r :: rest, acc =>
    if goIsSpace r then
      if acc ≠ "" then .tok acc SState.Default (r :: rest)
      else if r = '\n' then .tok "\n" SState.Space rest
      else nextToken SState.Default rest acc
    else if r = '(' then
      if acc ≠ "" then .tok acc SState.Default (r :: rest)
      else .tok "(" SState.Paren rest
    else if r = '"' then
      if acc ≠ "" then .tok acc SState.Default (r :: rest)
      else nextToken SState.String rest (acc.push r)
    else if r = ';' then
      if acc ≠ "" then .tok acc SState.Default (r :: rest)
      else nextToken SState.Comment rest (acc.push r)
    else nextToken SState.Default rest (acc.push r)
  | SState.Paren, r :: rest, acc =>
    if goIsSpace r then
      if acc ≠ "" then .tok acc SState.Paren (r :: rest)
      else nextToken SState.Paren rest acc
    else if r = ')' then
      if acc ≠ "" then .tok acc SState.Paren (r :: rest)
      else .tok ")" SState.Default rest
    else if r = '"' then
      if acc ≠ "" then .tok acc SState.Paren (r :: rest)
      else nextToken SState.ParenString rest (acc.push r)
    else if r = ';' then
      if acc ≠ "" then .tok acc SState.Paren (r :: rest)
      else nextToken SState.ParenComment rest (acc.push r)
    else nextToken SState.Paren rest (acc.push r)
  | SState.String, r :: rest, acc =>
    if r = '"' then .tok (acc.push r) SState.Default rest
    else if r = '\\' then nextToken SState.StringEscape rest (acc.push r)
    else nextToken SState.String rest (acc.push r)
  | SState.ParenString, r :: rest, acc =>
    if r = '"' then .tok (acc.push r) SState.Paren rest
    else if r = '\\' then nextToken SState.ParenStringEscape rest (acc.push r)
    else nextToken SState.ParenString rest (acc.push r)
  | SState.StringEscape, r :: rest, acc =>
    nextToken SState.String rest (acc.push r)
  | SState.ParenStringEscape, r :: rest, acc =>
    nextToken SState.ParenString rest (acc.push r)
  | SState.Comment, r :: rest, acc =>
    if r = '\n' then
      -- Go switches to Default and reprocesses the newline; Default inlined:
      if acc ≠ "" then .tok acc SState.Default (r :: rest)
      else .tok "\n" SState.Space rest
    else nextToken SState.Comment rest (acc.push r)
  | SState.ParenComment, r :: rest, acc =>
    if r = '\n' then
      -- Go switches to Paren and reprocesses; the newline is whitespace there:
      if acc ≠ "" then .tok acc SState.Paren (r :: rest)
      else nextToken SState.Paren rest acc
    else nextToken SState.ParenComment rest (acc.push r)
  | SState.Space, r :: rest, acc =>
    if goIsSpace r then nextToken SState.Space rest acc
    else
      -- Go switches to Default and reprocesses the rune; Default inlined:
      if r = '(' then
        if acc ≠ "" then .tok acc SState.Default (r :: rest)
        else .tok "(" SState.Paren rest
      else if r = '"' then
        if acc ≠ "" then .tok acc SState.Default (r :: rest)
        else nextToken SState.String rest (acc.push r)
      else if r = ';' then
        if acc ≠ "" then .tok acc SState.Default (r :: rest)
        else nextToken SState.Comment rest (acc.push r)
      else nextToken SState.Default rest (acc.push r)

/-- Go `strings.ToUpper`, character-wise (the Go function differs from this
ASCII mapping only on non-ASCII runes, which no mnemonic contains).  Written
via `List.map` so that it is structurally recursive and kernel-evaluable. -/
def strUpper (s : String) : String := String.mk (s.data.map Char.toUpper)

/-- `parseClass` from the Go source. -/
def parseClass (token : String) : Except String RecordClass :=
  match strUpper token with
  | "IN" => .ok RecordClass.IN
  | "CS" => .ok RecordClass.CS
  | "CH" => .ok RecordClass.CH
  | "HS" => .ok RecordClass.HS
  | "*" => .ok RecordClass.any
  | _ => .error (unknownClassMsg token)

/-- `parseType` from the Go source. -/
def parseType (token : String) : Except String RecordType :=
  match strUpper token with
  | "A" => .ok RecordType.A
  | "NS" => .ok RecordType.NS
  | "MD" => .ok RecordType.MD
  | "MF" => .ok RecordType.MF
  | "CNAME" => .ok RecordType.CNAME
  | "SOA" => .ok RecordType.SOA
  | "MB" => .ok RecordType.MB
  | "MG" => .ok RecordType.MG
  | "MR" => .ok RecordType.MR
  | "NULL" => .ok RecordType.NULL
  | "WKS" => .ok RecordType.WKS
  | "PTR" => .ok RecordType.PTR
  | "HINFO" => .ok RecordType.HINFO
  | "MINFO" => .ok RecordType.MINFO
  | "MX" => .ok RecordType.MX
  | "TXT" => .ok RecordType.TXT
  | "AAAA" => .ok RecordType.AAAA
  | "AFSDB" => .ok RecordType.AFSDB
  | "DNSKEY" => .ok RecordType.DNSKEY
  | "DS" => .ok RecordType.DS
  | "LOC" => .ok RecordType.LOC
  | "NAPTR" => .ok RecordType.NAPTR
  | "NSEC3" => .ok RecordType.NSEC3
  | "NSEC3PARAM" => .ok RecordType.NSEC3PARAM
  | "RP" => .ok RecordType.RP
  | "RRSIG" => .ok RecordType.RRSIG
  | "SPF" => .ok RecordType.SPF
  | "SRV" => .ok RecordType.SRV
  | "SSHFP" => .ok RecordType.SSHFP
  | _ => .error (unknownTypeMsg token)

/-- Digit value of an ASCII character, as accepted by base-10 `ParseUint`. -/
def digitVal (c : Char) : Option Nat :=
  if '0' ≤ c ∧ c ≤ '9' then some (c.toNat - '0'.toNat) else none

/-- Accumulate base-10 digits left to right. -/
def parseDigits : List Char → Nat → Option Nat
  | [], acc => some acc
  | c :: cs, acc =>
    match digitVal c with
    | some d => parseDigits cs (10 * acc + d)
    | none => none

/-- Go `strconv.ParseUint(s, 10, 32)`: a non-empty all-digit string whose
value fits 32 unsigned bits; everything else is an error (`none`). -/
def parseUint32 (s : String) : Option Nat :=
  if s = "" then none
  else
    match parseDigits s.data 0 with
    | some v => if v < 2 ^ 32 then some v else none
    | none => none

/-- Result of one `Scanner.Next` call: a record (with the scanner state and
unconsumed input that a following call would start from), the `io.EOF`
end-of-stream signal, or an error. -/
inductive NextResult where
  | ok (r : Record) (st : SState) (rest : List Char)
  | eof
  | err (msg : String)
  deriving Repr, DecidableEq

/-- The main `for` loop of `Scanner.Next` (everything after the domain name
has been captured), with its four flags.  Each iteration consumes at least one
rune, so fuel `input.length + 1` (supplied by `NextF`) never runs out. -/
def nextLoop : Nat → SState → List Char → Record → Bool → Bool → Bool → Bool → NextResult
  | 0, _, _, _, _, _, _, _ => .err fuelErr
  | Nat.succ fuel, st, input, record, hasClass, hasTTL, hasType, hasData =>
    match nextToken st input "" with
    | .errR m => .err m
    | .eofR stE =>
      if hasData then .ok record stE []
      else if hasClass || hasTTL || hasType then .err incompleteMsg
      else .eof
    | .tok t st2 rest =>
      if !hasType then
        match (if hasTTL then Option.none else parseUint32 t) with
        | some v =>
          nextLoop fuel st2 rest { record with TimeToLive := (v : Int) }
            hasClass true false hasData
        | none =>
          -- on a failed TTL parse Go resets record.TimeToLive to -1
          let record1 := if hasTTL then record else { record with TimeToLive := -1 }
          if hasClass then
            match parseType t with
            | .ok ty =>
              nextLoop fuel st2 rest { record1 with RType := ty }
                hasClass hasTTL true hasData
            | .error m => .err m
          else
            match parseClass t with
            | .ok c =>
              nextLoop fuel st2 rest { record1 with Class := c }
                true hasTTL false hasData
            | .error _ =>
              -- Go stores the returned RecordClass_UNKNOWN and falls through
              match parseType t with
              | .ok ty =>
                nextLoop fuel st2 rest
                  { record1 with Class := RecordClass.UNKNOWN, RType := ty }
                  hasClass hasTTL true hasData
              | .error m => .err m
      else if !hasData && (t = "\n" || headChar t = ';') then
        .err (missingDataMsg record.DomainName record.RType)
      else if headChar t = ';' then
        nextLoop fuel st2 rest { record with Comment := t }
          hasClass hasTTL hasType hasData
      else if t = "\n" then
        .ok record st2 rest
      else
        nextLoop fuel st2 rest
          { record with Comment := "", Data := record.Data ++ [t] }
          hasClass hasTTL hasType true

/-- The leading loop of `Scanner.Next`: skip record separators and full-line
comments before the domain name. -/
def skipLeading : Nat → SState → List Char → TokenResult
  | 0, _, _ => .errR fuelErr
  | Nat.succ fuel, st, input =>
    match nextToken st input "" with
    | .tok t st2 rest =>
      if t = "\n" || headChar t = ';' then skipLeading fuel st2 rest
      else .tok t st2 rest
    | r => r

/-- `Scanner.Next` from the Go source: skip leading separators/comments, take
the next token verbatim as the domain name, then run the main loop on a fresh
record with `TimeToLive = -1`. -/
def NextF (fuel : Nat) (st : SState) (input : List Char) : NextResult :=
  match skipLeading fuel st input with
  | .errR m => .err m
  | .eofR _ => .eof
  | .tok name st2 rest =>
    nextLoop fuel st2 rest
      { DomainName := name, TimeToLive := -1, Class := RecordClass.UNKNOWN,
        RType := RecordType.UNKNOWN, Data := [], Comment := "" }
      false false false false

/-- One `Scanner.Next` call on a fresh scanner reading `s`. -/
def scanNext (s : String) : NextResult :=
  NextF (s.data.length + 1) SState.Default s.data

/-- ASCII digit character for a value below ten. -/
def digitChar (d : Nat) : Char := Char.ofNat (48 + d)

/-- Base-10 digit characters of `n`, most significant first; the first
argument is fuel (any value above `n` is enough). -/
def natDigitsAux : Nat → Nat → List Char
  | 0, _ => []
  | Nat.succ fuel, n =>
    if n < 10 then [digitChar n]
    else natDigitsAux fuel (n / 10) ++ [digitChar (n % 10)]

/-- Decimal rendering of a natural number, as printed by Go `fmt.Sprintf("%d", _)`. -/
def natRepr (n : Nat) : String := String.mk (natDigitsAux (n + 1) n)

/-- Decimal rendering of a Go `int64` by `fmt.Sprintf("%d", _)`. -/
def intRepr (i : Int) : String :=
  if i < 0 then "-" ++ natRepr (-i).toNat else natRepr i.toNat

/-- `Record.String` from the Go source: the canonical text rendering.  (The
Go code first space-joins `r.Data` into one element of `spec` and then
space-joins `spec`.) -/
def Record.render (r : Record) : String :=
  String.intercalate " "
    ([r.DomainName]
      ++ (if r.TimeToLive ≠ -1 then [intRepr r.TimeToLive] else [])
      ++ (if r.Class ≠ RecordClass.UNKNOWN then [r.Class.toStr] else [])
      ++ (if r.RType ≠ RecordType.UNKNOWN then [r.RType.toStr] else [])
      ++ (if r.Data ≠ [] then [String.intercalate " " r.Data] else [])
      ++ (if r.Comment ≠ "" then [r.Comment] else []))

/-! ## Well-formedness of assembled records

The round-trip claim quantifies over assembled records whose quoted data
embeds no record-separator or parenthesis characters.  The predicates below
characterize the token shapes the tokenizer itself produces: plain words
(no whitespace and none of the four special characters), quoted strings
(escape-closed, terminated by the unescaped final quote), the two
parenthesis marker tokens, and trailing comments. -/

/-- A character that neither terminates nor splits a bare-word token. -/
def plainChar (c : Char) : Bool :=
  !goIsSpace c && !(c = '"') && !(c = ';') && !(c = '(') && !(c = ')')

/-- A bare-word token: non-empty, all characters plain. -/
def wordTokB (s : String) : Bool :=
  !(s = "") && s.data.all plainChar

/-- A character allowed inside quoted data by the round-trip claim's side
condition (no record separator, no parenthesis characters). -/
def quoteOK (c : Char) : Bool :=
  !(c = '\n') && !(c = '(') && !(c = ')')

/-- Escape-closed body of a quoted token after the opening quote: the flag
records whether the previous character was an unconsumed backslash; the
unescaped closing quote must be the last character. -/
def strBody : Bool → List Char → Bool
  | _, [] => false
  | false, c :: cs =>
    if c = '\\' then strBody true cs
    else if c = '"' then cs.isEmpty
    else quoteOK c && strBody false cs
  | true, c :: cs => quoteOK c && strBody false cs

/-- A quoted-string token: opening quote, escape-closed body, closing quote. -/
def quotedTokB (s : String) : Bool :=
  match s.data with
  | '"' :: rest => strBody false rest
  | _ => false

/-- A comment token: starts with the comment character, no newline inside. -/
def commentTokB (s : String) : Bool :=
  match s.data with
  | c :: cs => c = ';' && cs.all (fun d => !(d = '\n'))
  | [] => false

/-- A token that can occur in the data part of an assembled record. -/
def dataTokB (s : String) : Bool :=
  wordTokB s || quotedTokB s || s = "(" || s = ")"

/-- The bare-word track (`false` = `Default`, `true` = `Paren`). -/
def trk (p : Bool) : SState := if p then SState.Paren else SState.Default

/-- Track change caused by re-lexing one data token: a standalone `(` opens
a group when outside one, a standalone `)` closes the group when inside one,
everything else (including `(`/`)` re-lexed as bare words on the other
track) leaves the track unchanged. -/
def trackStep (p : Bool) (t : String) : Bool :=
  if t = "(" ∧ p = false then true
  else if t = ")" ∧ p = true then false
  else p

/-- Track after re-lexing a list of data tokens. -/
def trackAfter (p : Bool) (ts : List String) : Bool :=
  ts.foldl trackStep p

/-- Concatenation of tokens each preceded by one space (the tail of a
space-joined rendering). -/
def flatJoin : List String → List Char
  | [] => []
  | t :: ts => ' ' :: (t.data ++ flatJoin ts)

/-- The middle tokens of a rendered record: optional TTL, optional class,
type, data, optional trailing comment. -/
def midToks (r : Record) : List String :=
  (if r.TimeToLive ≠ -1 then [intRepr r.TimeToLive] else [])
    ++ (if r.Class ≠ RecordClass.UNKNOWN then [r.Class.toStr] else [])
    ++ [r.RType.toStr]
    ++ r.Data
    ++ (if r.Comment ≠ "" then [r.Comment] else [])

/-- Scanner state after the final token of a rendered record: in `Comment`
when a trailing comment was flushed at end of input, else in `Default`. -/
def endState : Option String → SState
  | some _ => SState.Comment
  | none => SState.Default

/-- Well-formed assembled record, restricted as in the round-trip claim: the
name is a word or quoted token, the TTL is the absent sentinel or a 32-bit
value, the type is known, the data is a non-empty list of word, quoted or
parenthesis-marker tokens whose parenthesis markers leave the scanner back
on the outer track, quoted data embeds no record-separator or parenthesis
characters, and the comment is empty or a newline-free `;`-token. -/
def Record.WF (r : Record) : Prop :=
  (wordTokB r.DomainName = true ∨ quotedTokB r.DomainName = true)
  ∧ (r.TimeToLive = -1 ∨ (0 ≤ r.TimeToLive ∧ r.TimeToLive < 2 ^ 32))
  ∧ r.RType ≠ RecordType.UNKNOWN
  ∧ r.Data ≠ []
  ∧ (∀ t ∈ r.Data, dataTokB t = true)
  ∧ trackAfter false r.Data = false
  ∧ (r.Comment = "" ∨ commentTokB r.Comment = true)

/-! ## Claim theorems -/

/-- Claim C1: for the well-formed single-line record
`example.com. 3600 IN A 192.0.2.1` followed by a record separator, the
assembler returns a `Record` whose fields match the literal tokens exactly,
and the reordered input `example.com. IN 3600 A 192.0.2.1` (class before
TTL) yields the very same `Record`: field detection is content-based, not
position-based. -/
theorem claim_C1 :
    scanNext "example.com. 3600 IN A 192.0.2.1\n"
      = NextResult.ok
          { DomainName := "example.com.", TimeToLive := 3600,
            Class := RecordClass.IN, RType := RecordType.A,
            Data := ["192.0.2.1"], Comment := "" }
          SState.Space []
    ∧ scanNext "example.com. IN 3600 A 192.0.2.1\n"
      = NextResult.ok
          { DomainName := "example.com.", TimeToLive := 3600,
            Class := RecordClass.IN, RType := RecordType.A,
            Data := ["192.0.2.1"], Comment := "" }
          SState.Space [] := by
  constructor <;> decide

/-- Claim C2: inside the `Paren` state a newline is ordinary whitespace, and
a parenthesized multi-line SOA record whose continuation lines end in inline
comments assembles to exactly the `Record` of its single-line form with the
internal comments stripped: `Data` is the ordered list of non-comment tokens
and `Comment` holds only the comment trailing the last data token
(`"; minimum"`), all earlier inline comments being discarded. -/
theorem claim_C2 :
    (∀ rest, nextToken SState.Paren ('\n' :: rest) "" = nextToken SState.Paren rest "")
    ∧ scanNext "example.com. 3600 IN SOA ns.example.com. admin.example.com. (\n2020 ; serial\n7200 ; refresh\n3600 ; retry\n1209600 ; expire\n300 ) ; minimum\n"
      = NextResult.ok
          { DomainName := "example.com.", TimeToLive := 3600,
            Class := RecordClass.IN, RType := RecordType.SOA,
            Data := ["ns.example.com.", "admin.example.com.", "(", "2020",
                     "7200", "3600", "1209600", "300", ")"],
            Comment := "; minimum" }
          SState.Space []
    ∧ scanNext "example.com. 3600 IN SOA ns.example.com. admin.example.com. ( 2020 7200 3600 1209600 300 ) ; minimum\n"
      = NextResult.ok
          { DomainName := "example.com.", TimeToLive := 3600,
            Class := RecordClass.IN, RType := RecordType.SOA,
            Data := ["ns.example.com.", "admin.example.com.", "(", "2020",
                     "7200", "3600", "1209600", "300", ")"],
            Comment := "; minimum" }
          SState.Space [] :=
  ⟨fun _ => rfl, by decide, by decide⟩

/-- Claim C3 counterexample: a comment token that appears after the type but
before any data token does NOT update the trailing comment field and
continue — `Scanner.Next` fails with the missing-data error, so the claim's
"whether before, between, or after data tokens ... parsing continues" is
false on this input. -/
theorem claim_C3_counterexample :
    scanNext "example.com. A ;note\n"
      = NextResult.err "missing data part for DomainName: example.com.; Type: A" := by
  decide

/-- Claim C8 counterexample: on the input consisting of a lone domain-name
token and nothing else, `Scanner.Next` consumes and stores the name and then
meets end-of-input, yet it still signals the plain end-of-stream `EOF`
rather than an error — so "EOF iff the input was exhausted with no partially
captured record fields pending" is false: the domain-name field was pending
here. -/
theorem claim_C8_counterexample :
    scanNext "example.com." = NextResult.eof := by
  decide

/-- `parseUint32` only succeeds with values below `2 ^ 32`. -/
theorem parseUint32_lt {t : String} {v : Nat} (h : parseUint32 t = some v) :
    v < 2 ^ 32 := by
  unfold parseUint32 at h
  split at h
  · exact absurd h (by simp)
  · split at h
    · split at h
      · simp_all
      · exact absurd h (by simp)
    · exact absurd h (by simp)

/-- A TTL capture in the `Scanner.Next` loop always comes from a successful
`ParseUint(tok, 10, 32)` (when the TTL flag is already set the parse is
skipped), so the captured value is below `2 ^ 32`. -/
theorem ttlParse_lt {ht : Bool} {t : String} {v : Nat}
    (h : (if ht = true then Option.none else parseUint32 t) = some v) :
    v < 2 ^ 32 := by
  cases ht
  · exact parseUint32_lt (by simpa using h)
  · simp at h

/-- The record built by the `Scanner.Next` loop keeps any `Comment` shape
invariant: the field is only ever set to `""` or to a token whose first
character is `;`. -/
theorem nextLoop_comment_inv :
    ∀ fuel st input rec hc ht hty hd r st2 rest,
      (rec.Comment = "" ∨ headChar rec.Comment = ';') →
      nextLoop fuel st input rec hc ht hty hd = NextResult.ok r st2 rest →
      r.Comment = "" ∨ headChar r.Comment = ';' := by
  intro fuel
  induction fuel with
  | zero =>
    intro st input rec hc ht hty hd r st2 rest hinv h
    simp [nextLoop] at h
  | succ fuel IH =>
    intro st input rec hc ht hty hd r st2 rest hinv h
    rw [nextLoop] at h
    repeat' split at h
    all_goals
      first
      | (cases h <;> exact hinv)
      | exact IH _ _ _ _ _ _ _ _ _ _ (by simpa using hinv) h
      | exact IH _ _ _ _ _ _ _ _ _ _ (by split <;> simpa using hinv) h
      | exact IH _ _ _ _ _ _ _ _ _ _ (Or.inl rfl) h
      | exact IH _ _ _ _ _ _ _ _ _ _ (Or.inr (by assumption)) h

/-- Claim C3 (amended): once the type is known, a comment token that arrives
BEFORE any data token makes `Scanner.Next` fail with the missing-data error;
a comment token arriving after at least one data token updates the trailing
comment field and parsing continues; any further data token clears the field
(so only a comment after the final data token survives); and every
successfully returned record has an empty comment or one starting with `;`. -/
theorem claim_C3 :
    (∀ fuel st input rec hc ht t st2 rest,
        nextToken st input "" = TokenResult.tok t st2 rest → headChar t = ';' →
        nextLoop (fuel + 1) st input rec hc ht true false
          = NextResult.err (missingDataMsg rec.DomainName rec.RType))
    ∧ (∀ fuel st input rec hc ht t st2 rest,
        nextToken st input "" = TokenResult.tok t st2 rest → headChar t = ';' →
        nextLoop (fuel + 1) st input rec hc ht true true
          = nextLoop fuel st2 rest { rec with Comment := t } hc ht true true)
    ∧ (∀ fuel st input rec hc ht hd t st2 rest,
        nextToken st input "" = TokenResult.tok t st2 rest →
        headChar t ≠ ';' → t ≠ "\n" →
        nextLoop (fuel + 1) st input rec hc ht true hd
          = nextLoop fuel st2 rest
              { rec with Comment := "", Data := rec.Data ++ [t] } hc ht true true)
    ∧ (∀ s r st rest, scanNext s = NextResult.ok r st rest →
        r.Comment = "" ∨ headChar r.Comment = ';') := by
  refine ⟨?_, ?_, ?_, ?_⟩
  · intro fuel st input rec hc ht t st2 rest hnt hcm
    simp only [nextLoop, hnt]
    simp [hcm]
  · intro fuel st input rec hc ht t st2 rest hnt hcm
    simp only [nextLoop, hnt]
    simp [hcm]
  · intro fuel st input rec hc ht hd t st2 rest hnt hcm hnl
    simp only [nextLoop, hnt]
    simp [hcm, hnl]
  · intro s r st rest h
    unfold scanNext NextF at h
    cases hsk : skipLeading (s.data.length + 1) SState.Default s.data with
    | errR m => rw [hsk] at h; simp at h
    | eofR stE => rw [hsk] at h; simp at h
    | tok name st2 rest2 =>
      rw [hsk] at h
      exact nextLoop_comment_inv _ _ _ _ _ _ _ _ _ _ _ (Or.inl rfl) h

/-- Claim C3 witness: instantiating the amended claim on concrete inputs. -/
theorem claim_C3_witness :
    nextLoop 1 SState.Default (';' :: 'c' :: '\n' :: [])
      { DomainName := "n", TimeToLive := -1, Class := RecordClass.UNKNOWN,
        RType := RecordType.A, Data := [], Comment := "" }
      false false true false
      = NextResult.err (missingDataMsg "n" RecordType.A) :=
  claim_C3.1 0 SState.Default (';' :: 'c' :: '\n' :: []) _ false false
    ";c" SState.Default ['\n'] (by decide) (by decide)

/-- Claim C5: for a record whose name and (optional) TTL/class plus type
have been captured but that has no data token yet, end-of-input produces the
structural "incomplete record" error while a record separator produces the
distinct "missing data" error naming domain and type; concretely
`example.com. 3600 IN A` fails one way and `example.com. 3600 IN A\n` the
other. -/
theorem claim_C5 :
    (∀ fuel st input rec hc ht st0,
        nextToken st input "" = TokenResult.eofR st0 →
        nextLoop (fuel + 1) st input rec hc ht true false
          = NextResult.err incompleteMsg)
    ∧ (∀ fuel st input rec hc ht st2 rest,
        nextToken st input "" = TokenResult.tok "\n" st2 rest →
        nextLoop (fuel + 1) st input rec hc ht true false
          = NextResult.err (missingDataMsg rec.DomainName rec.RType))
    ∧ scanNext "example.com. 3600 IN A" = NextResult.err incompleteMsg
    ∧ scanNext "example.com. 3600 IN A\n"
        = NextResult.err (missingDataMsg "example.com." RecordType.A) := by
  refine ⟨?_, ?_, by decide, by decide⟩
  · intro fuel st input rec hc ht st0 hnt
    simp only [nextLoop, hnt]
    simp
  · intro fuel st input rec hc ht st2 rest hnt
    simp only [nextLoop, hnt]
    simp

/-- Claim C5 witness: the two generic parts at concrete inputs. -/
theorem claim_C5_witness :
    nextLoop 1 SState.Default []
      { DomainName := "n", TimeToLive := -1, Class := RecordClass.UNKNOWN,
        RType := RecordType.A, Data := [], Comment := "" }
      false false true false
      = NextResult.err incompleteMsg
    ∧ nextLoop 1 SState.Default ('\n' :: [])
      { DomainName := "n", TimeToLive := -1, Class := RecordClass.UNKNOWN,
        RType := RecordType.A, Data := [], Comment := "" }
      false false true false
      = NextResult.err (missingDataMsg "n" RecordType.A) :=
  ⟨claim_C5.1 0 SState.Default [] _ false false SState.Default (by decide),
   claim_C5.2.1 0 SState.Default ('\n' :: []) _ false false SState.Space [] (by decide)⟩

/-- Claim C6: at end of input the tokenizer returns a pending non-empty
token once more in the `Default`, `Space` and `Comment` states (and then the
end-of-stream signal), while in every other state — in particular inside an
unterminated quoted string — it fails with the lexical error
"Unexpected end of input". -/
theorem claim_C6 :
    (∀ st a, (st = SState.Default ∨ st = SState.Space ∨ st = SState.Comment) →
        a ≠ "" → nextToken st [] a = TokenResult.tok a st [])
    ∧ (∀ st, (st = SState.Default ∨ st = SState.Space ∨ st = SState.Comment) →
        nextToken st [] "" = TokenResult.eofR st)
    ∧ (∀ st a, ¬(st = SState.Default ∨ st = SState.Space ∨ st = SState.Comment) →
        nextToken st [] a = TokenResult.errR uneofMsg)
    ∧ nextToken SState.Default ('"' :: 'a' :: 'b' :: 'c' :: []) ""
        = TokenResult.errR uneofMsg := by
  refine ⟨?_, ?_, ?_, by decide⟩
  · rintro st a (rfl | rfl | rfl) ha <;> simp [nextToken, ha]
  · rintro st (rfl | rfl | rfl) <;> simp [nextToken]
  · intro st a h
    cases st <;> simp [nextToken] <;> simp_all

/-- Claim C6 witness: the generic parts at concrete states and tokens. -/
theorem claim_C6_witness :
    nextToken SState.Comment [] "; m" = TokenResult.tok "; m" SState.Comment []
    ∧ nextToken SState.Space [] "" = TokenResult.eofR SState.Space
    ∧ nextToken SState.ParenString [] "\"x" = TokenResult.errR uneofMsg :=
  ⟨claim_C6.1 SState.Comment "; m" (Or.inr (Or.inr rfl)) (by decide),
   claim_C6.2.1 SState.Space (Or.inr (Or.inl rfl)),
   claim_C6.2.2.1 SState.ParenString "\"x" (by intro hcon; rcases hcon with h | h | h <;> cases h)⟩

/-- Claim C7: a token in type-required position that neither parses as a
32-bit TTL, nor matches a class mnemonic, nor matches a type mnemonic makes
`Scanner.Next` fail with the "Unknown Record Type" classification error;
scanning of the record stops at that token and no record is produced
(concretely for the token `BOGUS`). -/
theorem claim_C7 :
    (∀ fuel st input rec hc ht hd t st2 rest,
        nextToken st input "" = TokenResult.tok t st2 rest →
        parseUint32 t = none →
        parseClass t = Except.error (unknownClassMsg t) →
        parseType t = Except.error (unknownTypeMsg t) →
        nextLoop (fuel + 1) st input rec hc ht false hd
          = NextResult.err (unknownTypeMsg t))
    ∧ scanNext "example.com. BOGUS 192.0.2.1\n"
        = NextResult.err (unknownTypeMsg "BOGUS") := by
  refine ⟨?_, by decide⟩
  intro fuel st input rec hc ht hd t st2 rest hnt hpu hpc hpt
  simp only [nextLoop, hnt]
  cases ht <;> cases hc <;> simp [hpu, hpc, hpt]

/-- Claim C7 witness: the generic part at the concrete token `BOGUS`. -/
theorem claim_C7_witness :
    nextLoop 1 SState.Default ('B' :: 'O' :: 'G' :: 'U' :: 'S' :: '\n' :: [])
      { DomainName := "n", TimeToLive := -1, Class := RecordClass.UNKNOWN,
        RType := RecordType.UNKNOWN, Data := [], Comment := "" }
      false false false false
      = NextResult.err (unknownTypeMsg "BOGUS") :=
  claim_C7.1 0 SState.Default _ _ false false false "BOGUS" SState.Default ['\n']
    (by decide) (by decide) rfl rfl

/-- Claim C8 (amended): the main `Scanner.Next` loop signals the clean
end-of-stream `EOF` only when no TTL, class, type or data was captured; a
lone already-consumed domain-name token does not prevent the `EOF` signal
(see the counterexample), so "no partially captured fields" must read "none
of the four classified fields". -/
theorem claim_C8 :
    ∀ fuel st input rec hc ht hty hd,
      nextLoop fuel st input rec hc ht hty hd = NextResult.eof →
      hc = false ∧ ht = false ∧ hty = false ∧ hd = false := by
  intro fuel
  induction fuel with
  | zero =>
    intro st input rec hc ht hty hd h
    simp [nextLoop] at h
  | succ fuel IH =>
    intro st input rec hc ht hty hd h
    rw [nextLoop] at h
    repeat' split at h
    all_goals
      first
      | (have hIH8 := IH _ _ _ _ _ _ _ h; simp_all; done)
      | (cases h <;> (simp_all; done))
      | (simp_all; done)

/-- Claim C8 witness: the amended characterization applied at a concrete
call that does return the end-of-stream signal. -/
theorem claim_C8_witness :
    (false : Bool) = false ∧ (false : Bool) = false
      ∧ (false : Bool) = false ∧ (false : Bool) = false :=
  claim_C8 1 SState.Default []
    { DomainName := "n", TimeToLive := -1, Class := RecordClass.UNKNOWN,
      RType := RecordType.UNKNOWN, Data := [], Comment := "" }
    false false false false (by decide)

/-- Claim C9: inside a quoted string a backslash consumes exactly one
following character and appends it verbatim without ending the token, so an
escaped quote does not terminate the string: the input token with the
character sequence quote, `a`, backslash, quote, `b`, quote tokenizes as a
single token bounded by the unescaped closing quote, and as a single data
element of the assembled record. -/
theorem claim_C9 :
    (∀ c rest a, nextToken SState.StringEscape (c :: rest) a
        = nextToken SState.String rest (a.push c))
    ∧ (∀ c rest a, nextToken SState.ParenStringEscape (c :: rest) a
        = nextToken SState.ParenString rest (a.push c))
    ∧ (∀ rest a, nextToken SState.String ('\\' :: rest) a
        = nextToken SState.StringEscape rest (a.push '\\'))
    ∧ (∀ rest a, nextToken SState.ParenString ('\\' :: rest) a
        = nextToken SState.ParenStringEscape rest (a.push '\\'))
    ∧ nextToken SState.Default "\"a\\\"b\"".data ""
        = TokenResult.tok "\"a\\\"b\"" SState.Default []
    ∧ scanNext "example.com. TXT \"a\\\"b\"\n"
        = NextResult.ok
            { DomainName := "example.com.", TimeToLive := -1,
              Class := RecordClass.UNKNOWN, RType := RecordType.TXT,
              Data := ["\"a\\\"b\""], Comment := "" }
            SState.Space [] :=
  ⟨fun _ _ _ => rfl, fun _ _ _ => rfl, fun _ _ => rfl, fun _ _ => rfl,
   by decide, by decide⟩

/-- The `Scanner.Next` loop preserves the TTL range invariant: the field is
`-1` or an unsigned 32-bit value, because a captured TTL always comes from a
successful `ParseUint(tok, 10, 32)`. -/
theorem nextLoop_ttl_inv :
    ∀ fuel st input rec hc ht hty hd r st2 rest,
      (rec.TimeToLive = -1 ∨ (0 ≤ rec.TimeToLive ∧ rec.TimeToLive ≤ 2 ^ 32 - 1)) →
      nextLoop fuel st input rec hc ht hty hd = NextResult.ok r st2 rest →
      r.TimeToLive = -1 ∨ (0 ≤ r.TimeToLive ∧ r.TimeToLive ≤ 2 ^ 32 - 1) := by
  intro fuel
  induction fuel with
  | zero =>
    intro st input rec hc ht hty hd r st2 rest hinv h
    simp [nextLoop] at h
  | succ fuel IH =>
    intro st input rec hc ht hty hd r st2 rest hinv h
    rw [nextLoop] at h
    repeat' split at h
    all_goals
      first
      | (cases h <;> exact hinv)
      | exact IH _ _ _ _ _ _ _ _ _ _ (by simpa using hinv) h
      | exact IH _ _ _ _ _ _ _ _ _ _ (by split <;> simpa using hinv) h
      | (refine IH _ _ _ _ _ _ _ _ _ _ ?_ h
         have hvlt := ttlParse_lt (by assumption)
         right
         constructor <;> simp <;> omega)

/-! ### Decimal rendering round-trips through the TTL parser -/

/-- `digitChar` values re-parse to the digit they encode. -/
theorem digitVal_digitChar {d : Nat} (h : d < 10) :
    digitVal (digitChar d) = some d := by
  interval_cases d <;> decide

/-- `parseDigits` processes an appended list in two stages. -/
theorem parseDigits_append (ds es : List Char) (acc : Nat) :
    parseDigits (ds ++ es) acc
      = match parseDigits ds acc with
        | some v => parseDigits es v
        | none => none := by
  induction ds generalizing acc with
  | nil => rfl
  | cons c cs IH =>
    simp only [List.cons_append, parseDigits]
    cases hdv : digitVal c with
    | some d => simp [IH]
    | none => rfl

/-- The digit rendering of `n` is never empty (with enough fuel). -/
theorem natDigitsAux_ne_nil {f n : Nat} (h : n < f) : natDigitsAux f n ≠ [] := by
  cases f with
  | zero => omega
  | succ f =>
    simp only [natDigitsAux]
    split <;> simp

/-- Every character of the digit rendering encodes a digit below ten. -/
theorem natDigitsAux_mem :
    ∀ f n, n < f → ∀ c ∈ natDigitsAux f n, ∃ d, d < 10 ∧ c = digitChar d := by
  intro f
  induction f with
  | zero => omega
  | succ f IH =>
    intro n h c hc
    rw [natDigitsAux] at hc
    split at hc
    · simp only [List.mem_singleton] at hc
      exact ⟨n, by omega, hc⟩
    · rw [List.mem_append] at hc
      rcases hc with hc | hc
      · have hdiv : n / 10 < f := by
          have := Nat.div_lt_self (show 0 < n by omega) (show 1 < 10 by omega)
          omega
        exact IH (n / 10) hdiv c hc
      · simp only [List.mem_singleton] at hc
        exact ⟨n % 10, Nat.mod_lt n (by omega), hc⟩

/-- Value of the rendered digits under `parseDigits`. -/
theorem parseDigits_natDigitsAux :
    ∀ f n acc, n < f →
      parseDigits (natDigitsAux f n) acc
        = some (acc * 10 ^ (natDigitsAux f n).length + n) := by
  intro f
  induction f with
  | zero => omega
  | succ f IH =>
    intro n acc h
    by_cases hn : n < 10
    · rw [natDigitsAux, if_pos hn]
      simp [parseDigits, digitVal_digitChar hn, Nat.mul_comm]
    · rw [natDigitsAux, if_neg hn, parseDigits_append]
      have hdiv : n / 10 < f := by
        have := Nat.div_lt_self (show 0 < n by omega) (show 1 < 10 by omega)
        omega
      rw [IH _ acc hdiv]
      simp only [parseDigits, digitVal_digitChar (Nat.mod_lt n (show 0 < 10 by omega)),
        List.length_append, List.length_singleton, Option.some.injEq]
      rw [pow_succ, ← mul_assoc]
      generalize acc * 10 ^ (natDigitsAux f (n / 10)).length = M
      omega

/-- Decimal rendering re-parses to the same 32-bit value. -/
theorem parseUint32_natRepr {n : Nat} (h : n < 2 ^ 32) :
    parseUint32 (natRepr n) = some n := by
  have hlt : n < n + 1 := Nat.lt_succ_self n
  have hne := natDigitsAux_ne_nil hlt
  unfold parseUint32 natRepr
  rw [if_neg (fun hcon => hne (by simpa using congrArg String.data hcon))]
  show (match parseDigits (natDigitsAux (n + 1) n) 0 with
        | some v => if v < 2 ^ 32 then some v else none
        | none => none) = some n
  rw [parseDigits_natDigitsAux (n + 1) n 0 hlt]
  simp
  omega

/-- Digit characters are plain word characters. -/
theorem natDigits_plain {f n : Nat} (h : n < f) :
    (natDigitsAux f n).all plainChar = true := by
  rw [List.all_eq_true]
  intro c hc
  obtain ⟨d, hd, rfl⟩ := natDigitsAux_mem f n h c hc
  interval_cases d <;> decide

/-- The decimal rendering of a non-negative `int64` is a bare-word token. -/
theorem intRepr_word {i : Int} (h0 : 0 ≤ i) : wordTokB (intRepr i) = true := by
  rw [intRepr, if_neg (by omega)]
  unfold wordTokB natRepr
  have hlt : i.toNat < i.toNat + 1 := Nat.lt_succ_self _
  have hne := natDigitsAux_ne_nil hlt
  have hne2 : ¬(String.mk (natDigitsAux (i.toNat + 1) i.toNat) = "") :=
    fun hcon => hne (by simpa using congrArg String.data hcon)
  simp [natDigits_plain hlt, hne2]

/-- The decimal rendering of an in-range non-negative `int64` re-parses to
its value. -/
theorem parseUint32_intRepr {i : Int} (h0 : 0 ≤ i) (h : i < 2 ^ 32) :
    parseUint32 (intRepr i) = some i.toNat := by
  rw [intRepr, if_neg (by omega)]
  exact parseUint32_natRepr (by omega)

/-! ### Lexing of well-formed tokens -/

/-- Structure eta for strings. -/
theorem mk_data (s : String) : String.mk s.data = s := rfl

/-- A `String.mk` of a non-empty list is not the empty string. -/
theorem mk_ne_empty {l : List Char} (h : ¬(l = [])) : ¬(String.mk l = "") :=
  fun hcon => h (by simpa using congrArg String.data hcon)

/-- A space between tokens is skipped on both bare-word tracks. -/
theorem nextToken_space (p : Bool) (rest : List Char) :
    nextToken (trk p) (' ' :: rest) "" = nextToken (trk p) rest "" := by
  cases p <;> rfl

/-- Components of `plainChar`. -/
theorem plainChar_spec {c : Char} (h : plainChar c = true) :
    goIsSpace c = false ∧ ¬(c = '"') ∧ ¬(c = ';') ∧ ¬(c = '(') ∧ ¬(c = ')') := by
  unfold plainChar at h
  simp only [Bool.and_eq_true, Bool.not_eq_true', decide_eq_false_iff_not] at h
  tauto

/-- Plain-word characters accumulate identically on both tracks; the word is
flushed (unconsumed) at the following space. -/
theorem wordLexAux (tail : List Char) :
    ∀ cs p (acc : String), cs.all plainChar = true → ¬(acc.data ++ cs = []) →
      nextToken (trk p) (cs ++ ' ' :: tail) acc
        = TokenResult.tok (String.mk (acc.data ++ cs)) (trk p) (' ' :: tail) := by
  intro cs
  induction cs with
  | nil =>
    intro p acc hall hne
    have hacc : ¬(acc = "") := fun hcon => hne (by simp [hcon])
    cases p
    · show nextToken SState.Default (' ' :: tail) acc = _
      rw [nextToken, if_pos (by decide), if_pos hacc]
      simp [trk, mk_data]
    · show nextToken SState.Paren (' ' :: tail) acc = _
      rw [nextToken, if_pos (by decide), if_pos hacc]
      simp [trk, mk_data]
  | cons c cs IH =>
    intro p acc hall hne
    simp only [List.all_cons, Bool.and_eq_true] at hall
    obtain ⟨hc, hcs⟩ := hall
    obtain ⟨hsp, hq, hsc, hop, hcl⟩ := plainChar_spec hc
    have hstep := IH p (acc.push c) hcs (by simp)
    cases p
    · show nextToken SState.Default (c :: (cs ++ ' ' :: tail)) acc = _
      rw [nextToken, if_neg (by simp [hsp]), if_neg (by simp [hop]),
        if_neg (by simp [hq]), if_neg (by simp [hsc])]
      simpa [List.append_assoc] using hstep
    · show nextToken SState.Paren (c :: (cs ++ ' ' :: tail)) acc = _
      rw [nextToken, if_neg (by simp [hsp]), if_neg (by simp [hcl]),
        if_neg (by simp [hq]), if_neg (by simp [hsc])]
      simpa [List.append_assoc] using hstep

/-- A plain word followed by a space lexes to itself on either track. -/
theorem wordLexSpace {t : String} (p : Bool) (tail : List Char) (h : wordTokB t = true) :
    nextToken (trk p) (t.data ++ ' ' :: tail) "" = TokenResult.tok t (trk p) (' ' :: tail) := by
  unfold wordTokB at h
  simp only [Bool.and_eq_true, Bool.not_eq_true', decide_eq_false_iff_not] at h
  obtain ⟨hne, hall⟩ := h
  have hdne : ¬(t.data = []) := fun hcon => hne (by rw [← mk_data t, hcon])
  have := wordLexAux tail t.data p "" hall (fun hcon => hdne (by simpa using hcon))
  simpa [mk_data] using this

/-- Plain-word characters accumulate in the `Default` state up to end of
input, where the pending word is flushed. -/
theorem wordLexAuxEnd :
    ∀ cs (acc : String), cs.all plainChar = true → ¬(acc.data ++ cs = []) →
      nextToken SState.Default cs acc
        = TokenResult.tok (String.mk (acc.data ++ cs)) SState.Default [] := by
  intro cs
  induction cs with
  | nil =>
    intro acc hall hne
    have hacc : ¬(acc = "") := fun hcon => hne (by simp [hcon])
    rw [nextToken, if_pos (by decide), if_pos hacc]
    simp [mk_data]
  | cons c cs IH =>
    intro acc hall hne
    simp only [List.all_cons, Bool.and_eq_true] at hall
    obtain ⟨hc, hcs⟩ := hall
    obtain ⟨hsp, hq, hsc, hop, hcl⟩ := plainChar_spec hc
    have hstep := IH (acc.push c) hcs (by simp)
    rw [nextToken, if_neg (by simp [hsp]), if_neg (by simp [hop]),
      if_neg (by simp [hq]), if_neg (by simp [hsc])]
    simpa [List.append_assoc] using hstep

/-- A plain word at end of input lexes to itself in the `Default` state. -/
theorem wordLexEnd {t : String} (h : wordTokB t = true) :
    nextToken SState.Default t.data "" = TokenResult.tok t SState.Default [] := by
  unfold wordTokB at h
  simp only [Bool.and_eq_true, Bool.not_eq_true', decide_eq_false_iff_not] at h
  obtain ⟨hne, hall⟩ := h
  have hdne : ¬(t.data = []) := fun hcon => hne (by rw [← mk_data t, hcon])
  have := wordLexAuxEnd t.data "" hall (fun hcon => hdne (by simpa using hcon))
  simpa [mk_data] using this

/-- Inside a quoted string, an escape-closed body accumulates verbatim up to
and including the unescaped closing quote, on either track. -/
theorem strBodyLex (tail : List Char) :
    ∀ cs p (acc : String),
      (strBody false cs = true →
        nextToken (if p then SState.ParenString else SState.String) (cs ++ tail) acc
          = TokenResult.tok (String.mk (acc.data ++ cs)) (trk p) tail)
      ∧ (strBody true cs = true →
        nextToken (if p then SState.ParenStringEscape else SState.StringEscape)
            (cs ++ tail) acc
          = TokenResult.tok (String.mk (acc.data ++ cs)) (trk p) tail) := by
  intro cs
  induction cs with
  | nil =>
    intro p acc
    constructor <;> intro h <;> simp [strBody] at h
  | cons c cs IH =>
    intro p acc
    constructor
    · intro h
      rw [strBody] at h
      by_cases hbs : c = '\\'
      · subst hbs
        rw [if_pos rfl] at h
        have hstep := (IH p (acc.push '\\')).2 h
        cases p
        · show nextToken SState.String ('\\' :: (cs ++ tail)) acc = _
          rw [nextToken, if_neg (by decide), if_pos rfl]
          simpa [List.append_assoc] using hstep
        · show nextToken SState.ParenString ('\\' :: (cs ++ tail)) acc = _
          rw [nextToken, if_neg (by decide), if_pos rfl]
          simpa [List.append_assoc] using hstep
      · rw [if_neg hbs] at h
        by_cases hq : c = '"'
        · subst hq
          rw [if_pos rfl] at h
          have hcs : cs = [] := by simpa using h
          subst hcs
          cases p
          · show nextToken SState.String ('"' :: tail) acc = _
            rw [nextToken, if_pos rfl]
            simp [trk, String.push]
          · show nextToken SState.ParenString ('"' :: tail) acc = _
            rw [nextToken, if_pos rfl]
            simp [trk, String.push]
        · rw [if_neg hq] at h
          simp only [Bool.and_eq_true] at h
          obtain ⟨-, hrest⟩ := h
          have hstep := (IH p (acc.push c)).1 hrest
          cases p
          · show nextToken SState.String (c :: (cs ++ tail)) acc = _
            rw [nextToken, if_neg hq, if_neg hbs]
            simpa [List.append_assoc] using hstep
          · show nextToken SState.ParenString (c :: (cs ++ tail)) acc = _
            rw [nextToken, if_neg hq, if_neg hbs]
            simpa [List.append_assoc] using hstep
    · intro h
      rw [strBody] at h
      simp only [Bool.and_eq_true] at h
      obtain ⟨-, hrest⟩ := h
      have hstep := (IH p (acc.push c)).1 hrest
      cases p
      · show nextToken SState.StringEscape (c :: (cs ++ tail)) acc = _
        rw [nextToken]
        simpa [List.append_assoc] using hstep
      · show nextToken SState.ParenStringEscape (c :: (cs ++ tail)) acc = _
        rw [nextToken]
        simpa [List.append_assoc] using hstep

/-- A quoted token lexes to itself on either track; the closing quote is
consumed, anything after it untouched. -/
theorem quotedLex {t : String} (p : Bool) (tail : List Char) (h : quotedTokB t = true) :
    nextToken (trk p) (t.data ++ tail) "" = TokenResult.tok t (trk p) tail := by
  unfold quotedTokB at h
  split at h
  case h_2 => simp at h
  case h_1 rest heq =>
    conv_lhs => rw [heq]
    conv_rhs => rw [← mk_data t, heq]
    have hstep := (strBodyLex tail rest p (String.mk ['"'])).1 h
    cases p
    · show nextToken SState.Default ('"' :: (rest ++ tail)) "" = _
      rw [nextToken, if_neg (by decide), if_neg (by decide), if_pos rfl, if_neg (by decide)]
      simpa [String.push] using hstep
    · show nextToken SState.Paren ('"' :: (rest ++ tail)) "" = _
      rw [nextToken, if_neg (by decide), if_neg (by decide), if_pos rfl, if_neg (by decide)]
      simpa [String.push] using hstep

/-- Comment characters accumulate in the `Comment` state; at end of input
the pending comment is flushed with the state unchanged. -/
theorem commentLexAux :
    ∀ cs (acc : String), (cs.all fun d => !(d = '\n')) = true → ¬(acc.data = []) →
      nextToken SState.Comment cs acc
        = TokenResult.tok (String.mk (acc.data ++ cs)) SState.Comment [] := by
  intro cs
  induction cs with
  | nil =>
    intro acc hall hacc
    rw [nextToken, if_pos (by decide),
      if_pos (fun hcon => hacc (by simpa using congrArg String.data hcon))]
    simp [mk_data]
  | cons c cs IH =>
    intro acc hall hacc
    simp only [List.all_cons, Bool.and_eq_true, Bool.not_eq_true',
      decide_eq_false_iff_not] at hall
    obtain ⟨hc, hcs⟩ := hall
    have hstep := IH (acc.push c) hcs (by simp)
    rw [nextToken, if_neg hc]
    simpa [List.append_assoc] using hstep

/-- A trailing comment token lexes to itself from the `Default` state at end
of input. -/
theorem commentLex {t : String} (h : commentTokB t = true) :
    nextToken SState.Default t.data "" = TokenResult.tok t SState.Comment [] := by
  unfold commentTokB at h
  split at h
  case h_2 => simp at h
  case h_1 c cs heq =>
    simp only [Bool.and_eq_true, decide_eq_true_eq] at h
    obtain ⟨rfl, hall⟩ := h
    conv_lhs => rw [heq]
    conv_rhs => rw [← mk_data t, heq]
    have hstep := commentLexAux cs (String.mk [';'])
      (by simpa [Bool.not_eq_true', decide_eq_false_iff_not] using hall) (by simp)
    rw [nextToken, if_neg (by decide), if_neg (by decide), if_neg (by decide), if_pos rfl]
    simpa [String.push] using hstep

/-! ### Data token facts and unified lexing -/

/-- The parenthesis markers are not plain words. -/
theorem word_ne_parens {t : String} (h : wordTokB t = true) : ¬(t = "(") ∧ ¬(t = ")") := by
  constructor <;> rintro rfl <;> exact absurd h (by decide)

/-- The parenthesis markers are not quoted tokens. -/
theorem quoted_ne_parens {t : String} (h : quotedTokB t = true) : ¬(t = "(") ∧ ¬(t = ")") := by
  constructor <;> rintro rfl <;> exact absurd h (by decide)

/-- Tokens other than the parenthesis markers keep the track unchanged. -/
theorem trackStep_self {t : String} (p : Bool) (h1 : ¬(t = "(")) (h2 : ¬(t = ")")) :
    trackStep p t = p := by
  unfold trackStep
  rw [if_neg (by tauto), if_neg (by tauto)]

/-- A data token is neither the record separator nor comment-headed. -/
theorem dataTok_not_sep {t : String} (h : dataTokB t = true) :
    ¬(t = "\n") ∧ ¬(headChar t = ';') := by
  unfold dataTokB at h
  simp only [Bool.or_eq_true, decide_eq_true_eq] at h
  rcases h with ((hw | hq) | rfl) | rfl
  · constructor
    · rintro rfl
      exact absurd hw (by decide)
    · intro hsc
      unfold wordTokB at hw
      simp only [Bool.and_eq_true, Bool.not_eq_true', decide_eq_false_iff_not] at hw
      obtain ⟨hne, hall⟩ := hw
      unfold headChar at hsc
      cases hd : t.data with
      | nil => exact hne (by rw [← mk_data t, hd])
      | cons c cs =>
        rw [hd] at hsc hall
        simp only [List.all_cons, Bool.and_eq_true] at hall
        obtain ⟨hpc, -⟩ := hall
        have hc2 : c = ';' := hsc
        rw [hc2] at hpc
        exact absurd hpc (by decide)
  · unfold quotedTokB at hq
    split at hq
    case h_2 => simp at hq
    case h_1 rest heq =>
      constructor
      · rintro rfl
        simp at heq
      · intro hsc
        unfold headChar at hsc
        rw [heq] at hsc
        have hsc2 : ('"' : Char) = ';' := hsc
        exact absurd hsc2 (by decide)
  · exact ⟨by decide, by decide⟩
  · exact ⟨by decide, by decide⟩

/-- A data token followed by a space lexes to itself, moving the track as
`trackStep` does. -/
theorem dataTokLexSpace {t : String} (p : Bool) (tail : List Char) (h : dataTokB t = true) :
    nextToken (trk p) (t.data ++ ' ' :: tail) ""
      = TokenResult.tok t (trk (trackStep p t)) (' ' :: tail) := by
  have h0 := h
  unfold dataTokB at h
  simp only [Bool.or_eq_true, decide_eq_true_eq] at h
  rcases h with ((hw | hq) | rfl) | rfl
  · obtain ⟨h1, h2⟩ := word_ne_parens hw
    rw [trackStep_self p h1 h2]
    exact wordLexSpace p tail hw
  · obtain ⟨h1, h2⟩ := quoted_ne_parens hq
    rw [trackStep_self p h1 h2]
    exact quotedLex p (' ' :: tail) hq
  · cases p <;> rfl
  · cases p <;> rfl

/-- A data token at end of input lexes to itself provided the track ends on
the outer (`Default`) side. -/
theorem dataTokLexEnd {t : String} (p : Bool) (h : dataTokB t = true)
    (hend : trackStep p t = false) :
    nextToken (trk p) t.data "" = TokenResult.tok t SState.Default [] := by
  unfold dataTokB at h
  simp only [Bool.or_eq_true, decide_eq_true_eq] at h
  rcases h with ((hw | hq) | rfl) | rfl
  · obtain ⟨h1, h2⟩ := word_ne_parens hw
    rw [trackStep_self p h1 h2] at hend
    subst hend
    exact wordLexEnd hw
  · obtain ⟨h1, h2⟩ := quoted_ne_parens hq
    rw [trackStep_self p h1 h2] at hend
    subst hend
    have := quotedLex (t := t) false [] hq
    simpa [trk] using this
  · cases p <;> simp [trackStep] at hend
  · cases p <;> rfl

/-! ### Decomposing the canonical rendering -/

/-- `flatJoin` distributes over append. -/
theorem flatJoin_append (xs ys : List String) :
    flatJoin (xs ++ ys) = flatJoin xs ++ flatJoin ys := by
  induction xs with
  | nil => rfl
  | cons x xs IH => simp [flatJoin, IH]

/-- The accumulator form of `String.intercalate` flattens to `flatJoin`. -/
theorem intercalate_go_data :
    ∀ (l : List String) (acc : String),
      (String.intercalate.go acc " " l).data = acc.data ++ flatJoin l := by
  intro l
  induction l with
  | nil => intro acc; simp [String.intercalate.go, flatJoin]
  | cons b bs IH =>
    intro acc
    rw [String.intercalate.go, IH]
    simp [flatJoin]

/-- Space-intercalation of a non-empty token list flattens to the head
followed by `flatJoin` of the tail. -/
theorem intercalate_data (a : String) (l : List String) :
    (String.intercalate " " (a :: l)).data = a.data ++ flatJoin l := by
  show (String.intercalate.go a " " l).data = _
  exact intercalate_go_data l a

/-- The rendered record is its domain name followed by the flattened middle
tokens. -/
theorem render_data {r : Record} (hty : r.RType ≠ RecordType.UNKNOWN) (hd : ¬(r.Data = [])) :
    (r.render).data = r.DomainName.data ++ flatJoin (midToks r) := by
  unfold Record.render midToks
  rw [if_pos hty, if_pos hd]
  cases hdata : r.Data with
  | nil => exact absurd hdata hd
  | cons d ds =>
    simp only [List.singleton_append, List.cons_append]
    rw [intercalate_data]
    simp only [flatJoin_append, flatJoin, intercalate_data, List.append_assoc]
    simp [flatJoin_append]

/-! ### Stepping the assembler over a rendered record -/

/-- Setting an already `-1` TTL is the identity. -/
theorem setTTL_self {r : Record} (h : r.TimeToLive = -1) :
    ({ r with TimeToLive := -1 } : Record) = r := by
  cases r
  simp_all

/-- One data token is appended and the pending comment cleared. -/
theorem nextLoop_step_data {fuel : Nat} {st : SState} {input : List Char}
    {t : String} {st2 : SState} {rest : List Char}
    (hf : 0 < fuel)
    (hnt : nextToken st input "" = TokenResult.tok t st2 rest)
    (h1 : ¬(t = "\n")) (h2 : ¬(headChar t = ';'))
    (rec : Record) (hc ht hd : Bool) :
    nextLoop fuel st input rec hc ht true hd
      = nextLoop (fuel - 1) st2 rest
          { rec with Comment := "", Data := rec.Data ++ [t] } hc ht true true := by
  obtain ⟨f, rfl⟩ : ∃ f, fuel = f + 1 := ⟨fuel - 1, by omega⟩
  simp only [nextLoop, hnt, Nat.add_sub_cancel]
  simp [h1, h2]

/-- A comment token after data updates the trailing comment. -/
theorem nextLoop_step_comment {fuel : Nat} {st : SState} {input : List Char}
    {t : String} {st2 : SState} {rest : List Char}
    (hf : 0 < fuel)
    (hnt : nextToken st input "" = TokenResult.tok t st2 rest)
    (h2 : headChar t = ';')
    (rec : Record) (hc ht : Bool) :
    nextLoop fuel st input rec hc ht true true
      = nextLoop (fuel - 1) st2 rest { rec with Comment := t } hc ht true true := by
  obtain ⟨f, rfl⟩ : ∃ f, fuel = f + 1 := ⟨fuel - 1, by omega⟩
  simp only [nextLoop, hnt, Nat.add_sub_cancel]
  simp [h2]

/-- End of input with data captured returns the record. -/
theorem nextLoop_finish_eof {fuel : Nat} {st : SState} {input : List Char} {stE : SState}
    (hf : 0 < fuel)
    (hnt : nextToken st input "" = TokenResult.eofR stE)
    (rec : Record) (hc ht hty : Bool) :
    nextLoop fuel st input rec hc ht hty true = NextResult.ok rec stE [] := by
  obtain ⟨f, rfl⟩ : ∃ f, fuel = f + 1 := ⟨fuel - 1, by omega⟩
  simp only [nextLoop, hnt]
  simp

/-- A token parsing as a 32-bit integer is captured as the TTL. -/
theorem nextLoop_step_ttl {fuel : Nat} {st : SState} {input : List Char}
    {t : String} {st2 : SState} {rest : List Char} {v : Nat}
    (hf : 0 < fuel)
    (hnt : nextToken st input "" = TokenResult.tok t st2 rest)
    (hv : parseUint32 t = some v)
    (rec : Record) (hc hd : Bool) :
    nextLoop fuel st input rec hc false false hd
      = nextLoop (fuel - 1) st2 rest
          { rec with TimeToLive := (v : Int) } hc true false hd := by
  obtain ⟨f, rfl⟩ : ∃ f, fuel = f + 1 := ⟨fuel - 1, by omega⟩
  simp only [nextLoop, hnt, Nat.add_sub_cancel]
  simp [hv]

/-- A class mnemonic is captured when the TTL was already captured. -/
theorem nextLoop_step_class_ttl {fuel : Nat} {st : SState} {input : List Char}
    {t : String} {st2 : SState} {rest : List Char} {c : RecordClass}
    (hf : 0 < fuel)
    (hnt : nextToken st input "" = TokenResult.tok t st2 rest)
    (hpc : parseClass t = Except.ok c)
    (rec : Record) (hd : Bool) :
    nextLoop fuel st input rec false true false hd
      = nextLoop (fuel - 1) st2 rest { rec with Class := c } true true false hd := by
  obtain ⟨f, rfl⟩ : ∃ f, fuel = f + 1 := ⟨fuel - 1, by omega⟩
  simp only [nextLoop, hnt, Nat.add_sub_cancel]
  simp [hpc]

/-- A class mnemonic is captured with no TTL seen; the token does not parse
as an integer and the TTL stays at the sentinel. -/
theorem nextLoop_step_class {fuel : Nat} {st : SState} {input : List Char}
    {t : String} {st2 : SState} {rest : List Char} {c : RecordClass}
    (hf : 0 < fuel)
    (hnt : nextToken st input "" = TokenResult.tok t st2 rest)
    (hpu : parseUint32 t = none)
    (hpc : parseClass t = Except.ok c)
    (rec : Record) (hd : Bool) (hrec : rec.TimeToLive = -1) :
    nextLoop fuel st input rec false false false hd
      = nextLoop (fuel - 1) st2 rest { rec with Class := c } true false false hd := by
  obtain ⟨f, rfl⟩ : ∃ f, fuel = f + 1 := ⟨fuel - 1, by omega⟩
  simp only [nextLoop, hnt, Nat.add_sub_cancel]
  simp [hpu, hpc]
  congr 1
  cases rec
  simp_all

/-- The type mnemonic is captured; in the flag combinations that reach it the
failed TTL/class attempts leave the record unchanged. -/
theorem nextLoop_step_type {fuel : Nat} {st : SState} {input : List Char}
    {t : String} {st2 : SState} {rest : List Char} {ty : RecordType}
    {hc ht : Bool}
    (hf : 0 < fuel)
    (hnt : nextToken st input "" = TokenResult.tok t st2 rest)
    (hty : parseType t = Except.ok ty)
    (rec : Record) (hd : Bool)
    (hpu : ht = false → parseUint32 t = none)
    (httl : ht = false → rec.TimeToLive = -1)
    (hpc : hc = false → parseClass t = Except.error (unknownClassMsg t))
    (hcls : hc = false → rec.Class = RecordClass.UNKNOWN) :
    nextLoop fuel st input rec hc ht false hd
      = nextLoop (fuel - 1) st2 rest { rec with RType := ty } hc ht true hd := by
  obtain ⟨f, rfl⟩ : ∃ f, fuel = f + 1 := ⟨fuel - 1, by omega⟩
  simp only [nextLoop, hnt, Nat.add_sub_cancel]
  cases ht
  · have hpu2 := hpu rfl
    have httl2 := httl rfl
    cases hc
    · have hpc2 := hpc rfl
      have hcls2 := hcls rfl
      simp [hpu2, hpc2, hty]
      try congr 1
      try (cases rec; simp_all)
    · simp [hpu2, hty]
      try congr 1
      try (cases rec; simp_all)
  · cases hc
    · have hpc2 := hpc rfl
      have hcls2 := hcls rfl
      simp [hpc2, hty]
      try congr 1
      try (cases rec; simp_all)
    · simp [hty]

/-- A data token has at least one character. -/
theorem dataTok_data_ne {t : String} (h : dataTokB t = true) : ¬(t.data = []) := by
  unfold dataTokB at h
  simp only [Bool.or_eq_true, decide_eq_true_eq] at h
  rcases h with ((hw | hq) | rfl) | rfl
  · unfold wordTokB at hw
    simp only [Bool.and_eq_true, Bool.not_eq_true', decide_eq_false_iff_not] at hw
    exact fun hcon => hw.1 (by rw [← mk_data t, hcon])
  · unfold quotedTokB at hq
    split at hq
    case h_2 => simp at hq
    case h_1 rest heq => simp [heq]
  · decide
  · decide

/-- The data-collection phase of the loop over the flattened data tokens and
optional trailing comment of a rendered record. -/
theorem dataPhase :
    ∀ (ts : List String) (com : Option String) (fuel : Nat) (p : Bool)
      (rec : Record) (hc ht hd : Bool),
      (∀ t ∈ ts, dataTokB t = true) →
      trackAfter p ts = false →
      ¬(ts = []) →
      (∀ c, com = some c → commentTokB c = true) →
      (flatJoin (ts ++ com.toList)).length < fuel →
      nextLoop fuel (trk p) (flatJoin (ts ++ com.toList)) rec hc ht true hd
        = NextResult.ok
            { rec with Comment := com.getD "", Data := rec.Data ++ ts }
            (endState com) [] := by
  intro ts
  induction ts with
  | nil => intro com fuel p rec hc ht hd _ _ hne _ _; exact absurd rfl hne
  | cons t ts IH =>
    intro com fuel p rec hc ht hd hall htrack hne hcom hfuel
    have hdt : dataTokB t = true := hall t (by simp)
    have hall2 : ∀ u ∈ ts, dataTokB u = true := fun u hu => hall u (by simp [hu])
    obtain ⟨hnnl, hnsc⟩ := dataTok_not_sep hdt
    have htdpos : 0 < t.data.length :=
      List.length_pos.mpr (dataTok_data_ne hdt)
    have htrack2 : trackAfter (trackStep p t) ts = false := htrack
    by_cases hts : ts = []
    · subst hts
      have hstep1 : trackStep p t = false := htrack
      cases com with
      | none =>
        simp only [Option.toList_none, Option.getD_none] at hfuel ⊢
        have hsh : flatJoin ([t] ++ []) = ' ' :: (t.data ++ []) := rfl
        have hfl : 1 + t.data.length < fuel := by
          rw [hsh] at hfuel
          simp only [List.length_cons, List.length_append, List.length_nil] at hfuel
          omega
        have hlex : nextToken (trk p) (flatJoin ([t] ++ [])) ""
            = TokenResult.tok t SState.Default [] := by
          rw [hsh, nextToken_space]
          show nextToken (trk p) (t.data ++ []) "" = _
          rw [List.append_nil]
          exact dataTokLexEnd p hdt hstep1
        rw [nextLoop_step_data (by omega) hlex hnnl hnsc rec hc ht hd]
        rw [nextLoop_finish_eof (by omega)
          (show nextToken SState.Default [] "" = TokenResult.eofR SState.Default from rfl)
          _ hc ht true]
        rfl
      | some c =>
        simp only [Option.toList_some, Option.getD_some] at hfuel ⊢
        have hc1 : commentTokB c = true := hcom c rfl
        have hsh : flatJoin ([t] ++ [c]) = ' ' :: (t.data ++ (' ' :: (c.data ++ []))) := rfl
        have hfl : 2 + t.data.length + c.data.length < fuel + 1 := by
          rw [hsh] at hfuel
          simp only [List.length_cons, List.length_append, List.append_nil] at hfuel
          omega
        have hlex : nextToken (trk p) (flatJoin ([t] ++ [c])) ""
            = TokenResult.tok t (trk (trackStep p t)) (' ' :: (c.data ++ flatJoin [])) := by
          rw [hsh, nextToken_space]
          exact dataTokLexSpace p (c.data ++ flatJoin []) hdt
        have hclex : nextToken (trk (trackStep p t)) (' ' :: (c.data ++ flatJoin [])) ""
            = TokenResult.tok c SState.Comment [] := by
          rw [nextToken_space]
          show nextToken (trk (trackStep p t)) (c.data ++ []) "" = _
          rw [List.append_nil, hstep1]
          exact commentLex hc1
        have hsc : headChar c = ';' := by
          unfold commentTokB at hc1
          split at hc1
          case h_2 => simp at hc1
          case h_1 d ds heq =>
            simp only [Bool.and_eq_true, decide_eq_true_eq] at hc1
            unfold headChar
            rw [heq]
            exact hc1.1
        rw [nextLoop_step_data (by omega) hlex hnnl hnsc rec hc ht hd]
        rw [nextLoop_step_comment (by omega) hclex hsc _ hc ht]
        rw [nextLoop_finish_eof (by omega)
          (show nextToken SState.Comment [] "" = TokenResult.eofR SState.Comment from rfl)
          _ hc ht true]
        rfl
    · obtain ⟨t2, ts2, rfl⟩ : ∃ t2 ts2, ts = t2 :: ts2 := by
        cases ts with
        | nil => exact absurd rfl hts
        | cons a b => exact ⟨a, b, rfl⟩
      have hshape : flatJoin ((t :: t2 :: ts2) ++ com.toList)
          = ' ' :: (t.data ++ (' ' :: (t2.data ++ flatJoin (ts2 ++ com.toList)))) := rfl
      have hfl : 1 + t.data.length + (flatJoin ((t2 :: ts2) ++ com.toList)).length < fuel := by
        rw [hshape] at hfuel
        show 1 + t.data.length + (' ' :: (t2.data ++ flatJoin (ts2 ++ com.toList))).length < fuel
        simp only [List.length_cons, List.length_append] at hfuel ⊢
        omega
      have hlex : nextToken (trk p) (flatJoin ((t :: t2 :: ts2) ++ com.toList)) ""
          = TokenResult.tok t (trk (trackStep p t))
              (' ' :: (t2.data ++ flatJoin (ts2 ++ com.toList))) := by
        rw [hshape, nextToken_space]
        exact dataTokLexSpace p (t2.data ++ flatJoin (ts2 ++ com.toList)) hdt
      rw [nextLoop_step_data (by omega) hlex hnnl hnsc rec hc ht hd]
      rw [show (' ' :: (t2.data ++ flatJoin (ts2 ++ com.toList)))
          = flatJoin ((t2 :: ts2) ++ com.toList) from rfl]
      rw [IH com (fuel - 1) (trackStep p t)
        { rec with Comment := "", Data := rec.Data ++ [t] } hc ht true
        hall2 htrack2 (by simp) hcom (by omega)]
      simp

/-! ### Mnemonic tokens -/

/-- A known class mnemonic renders to a bare word. -/
theorem classStr_word {c : RecordClass} (h : c ≠ RecordClass.UNKNOWN) :
    wordTokB c.toStr = true := by
  cases c
  case UNKNOWN => exact absurd rfl h
  all_goals decide

/-- A known class mnemonic does not parse as an integer. -/
theorem classStr_noUint {c : RecordClass} (h : c ≠ RecordClass.UNKNOWN) :
    parseUint32 c.toStr = none := by
  cases c
  case UNKNOWN => exact absurd rfl h
  all_goals decide

/-- A known class mnemonic re-parses to itself. -/
theorem classStr_parse {c : RecordClass} (h : c ≠ RecordClass.UNKNOWN) :
    parseClass c.toStr = Except.ok c := by
  cases c
  case UNKNOWN => exact absurd rfl h
  all_goals rfl

/-- A known type mnemonic renders to a bare word. -/
theorem typeStr_word {rt : RecordType} (h : rt ≠ RecordType.UNKNOWN) :
    wordTokB rt.toStr = true := by
  cases rt
  case UNKNOWN => exact absurd rfl h
  all_goals decide

/-- A known type mnemonic does not parse as an integer. -/
theorem typeStr_noUint {rt : RecordType} (h : rt ≠ RecordType.UNKNOWN) :
    parseUint32 rt.toStr = none := by
  cases rt
  case UNKNOWN => exact absurd rfl h
  all_goals decide

/-- No type mnemonic is a class mnemonic. -/
theorem typeStr_noClass {rt : RecordType} (h : rt ≠ RecordType.UNKNOWN) :
    parseClass rt.toStr = Except.error (unknownClassMsg rt.toStr) := by
  cases rt
  case UNKNOWN => exact absurd rfl h
  all_goals rfl

/-- A known type mnemonic re-parses to itself. -/
theorem typeStr_parse {rt : RecordType} (h : rt ≠ RecordType.UNKNOWN) :
    parseType rt.toStr = Except.ok rt := by
  cases rt
  case UNKNOWN => exact absurd rfl h
  all_goals rfl

/-! ### Sequencing the rendered tokens -/

/-- Word and quoted tokens are data tokens. -/
theorem nameTok_dataTok {t : String}
    (h : wordTokB t = true ∨ quotedTokB t = true) : dataTokB t = true := by
  unfold dataTokB
  rcases h with h | h <;> simp [h]

/-- Word and quoted tokens keep the track unchanged. -/
theorem nameTok_trackStep {t : String}
    (h : wordTokB t = true ∨ quotedTokB t = true) (p : Bool) : trackStep p t = p := by
  rcases h with h | h
  · exact trackStep_self p (word_ne_parens h).1 (word_ne_parens h).2
  · exact trackStep_self p (quoted_ne_parens h).1 (quoted_ne_parens h).2

/-- Lexing the first rendered token (no leading space). -/
theorem lexFirst {t : String} (a : String) (as : List String)
    (hdt : dataTokB t = true) (hself : trackStep false t = false) :
    nextToken SState.Default (t.data ++ flatJoin (a :: as)) ""
      = TokenResult.tok t SState.Default (flatJoin (a :: as)) := by
  show nextToken (trk false) (t.data ++ (' ' :: (a.data ++ flatJoin as))) "" = _
  rw [dataTokLexSpace false _ hdt, hself]
  rfl

/-- Lexing a space-preceded token from the flattened stream on the outer
track, with more tokens following. -/
theorem lexStep_cons {t : String} (a : String) (as : List String)
    (hdt : dataTokB t = true) (hself : trackStep false t = false) :
    nextToken SState.Default (flatJoin (t :: a :: as)) ""
      = TokenResult.tok t SState.Default (flatJoin (a :: as)) := by
  show nextToken (trk false) (' ' :: (t.data ++ (' ' :: (a.data ++ flatJoin as)))) "" = _
  rw [nextToken_space, dataTokLexSpace false _ hdt, hself]
  rfl

/-- The skip loop passes through a token that is neither a separator nor a
comment. -/
theorem skipLeading_step {fuel : Nat} {st : SState} {input : List Char}
    {t : String} {st2 : SState} {rest : List Char}
    (hf : 0 < fuel)
    (hnt : nextToken st input "" = TokenResult.tok t st2 rest)
    (h1 : ¬(t = "\n")) (h2 : ¬(headChar t = ';')) :
    skipLeading fuel st input = TokenResult.tok t st2 rest := by
  obtain ⟨f, rfl⟩ : ∃ f, fuel = f + 1 := ⟨fuel - 1, by omega⟩
  simp only [skipLeading, hnt]
  simp [h1, h2]

/-- `Scanner.Next` after the skip loop has produced the domain name. -/
theorem NextF_step {fuel : Nat} {st : SState} {input : List Char}
    {name : String} {st2 : SState} {rest : List Char}
    (hsk : skipLeading fuel st input = TokenResult.tok name st2 rest) :
    NextF fuel st input
      = nextLoop fuel st2 rest
          { DomainName := name, TimeToLive := -1, Class := RecordClass.UNKNOWN,
            RType := RecordType.UNKNOWN, Data := [], Comment := "" }
          false false false false := by
  unfold NextF
  rw [hsk]

/-- `dataPhase` with the outer track spelled as the `Default` state. -/
theorem dataPhaseD (ts : List String) (com : Option String) (fuel : Nat)
    (rec : Record) (hc ht hd : Bool)
    (h1 : ∀ t ∈ ts, dataTokB t = true)
    (h2 : trackAfter false ts = false)
    (h3 : ¬(ts = []))
    (h4 : ∀ c, com = some c → commentTokB c = true)
    (h5 : (flatJoin (ts ++ com.toList)).length < fuel) :
    nextLoop fuel SState.Default (flatJoin (ts ++ com.toList)) rec hc ht true hd
      = NextResult.ok
          { rec with Comment := com.getD "", Data := rec.Data ++ ts }
          (endState com) [] := by
  exact dataPhase ts com fuel false rec hc ht hd h1 h2 h3 h4 h5

/-- Length of one `flatJoin` layer. -/
theorem flatJoin_cons_length (t : String) (ts : List String) :
    (flatJoin (t :: ts)).length = 1 + t.data.length + (flatJoin ts).length := by
  show (' ' :: (t.data ++ flatJoin ts)).length = _
  simp [List.length_cons, List.length_append]
  omega

/-- From the type mnemonic onward: capture the type, then run the data phase
to the end of the rendered text. -/
theorem typeAndData {ty : RecordType} {ts : List String} {com : Option String}
    (htyne : ty ≠ RecordType.UNKNOWN)
    (fuel : Nat) (rec : Record) (hc ht : Bool)
    (httl0 : ht = false → rec.TimeToLive = -1)
    (hcls0 : hc = false → rec.Class = RecordClass.UNKNOWN)
    (hts : ∀ t ∈ ts, dataTokB t = true)
    (htr : trackAfter false ts = false)
    (hne : ¬(ts = []))
    (hcomOK : ∀ c, com = some c → commentTokB c = true)
    (hfuel : (flatJoin (ty.toStr :: (ts ++ com.toList))).length < fuel) :
    nextLoop fuel SState.Default (flatJoin (ty.toStr :: (ts ++ com.toList))) rec hc ht false false
      = NextResult.ok
          { rec with RType := ty, Comment := com.getD "", Data := rec.Data ++ ts }
          (endState com) [] := by
  obtain ⟨d0, ds, rfl⟩ : ∃ d0 ds, ts = d0 :: ds := by
    cases ts with
    | nil => exact absurd rfl hne
    | cons a b => exact ⟨a, b, rfl⟩
  have hw : wordTokB ty.toStr = true := typeStr_word htyne
  have hlc := flatJoin_cons_length ty.toStr ((d0 :: ds) ++ com.toList)
  have hlex : nextToken SState.Default (flatJoin (ty.toStr :: ((d0 :: ds) ++ com.toList))) ""
      = TokenResult.tok ty.toStr SState.Default (flatJoin ((d0 :: ds) ++ com.toList)) := by
    rw [List.cons_append]
    exact lexStep_cons _ _ (nameTok_dataTok (Or.inl hw)) (nameTok_trackStep (Or.inl hw) false)
  rw [nextLoop_step_type (by omega) hlex (typeStr_parse htyne) rec false
    (fun _ => typeStr_noUint htyne) httl0 (fun _ => typeStr_noClass htyne) hcls0]
  rw [dataPhaseD (d0 :: ds) com (fuel - 1) _ hc ht false hts htr (by simp) hcomOK (by omega)]

/-- Claim C4: rendering an assembled record to canonical text
(`Record.String`) and re-parsing that text with `Scanner.Next` yields a
`Record` equal in every field to the original, for every well-formed record
(`Record.WF`) — in particular one containing no embedded record-separator or
parenthesis characters inside quoted data. -/
theorem claim_C4 :
    ∀ r : Record, Record.WF r →
      ∃ st, scanNext (Record.render r) = NextResult.ok r st [] := by
  intro r hwf
  obtain ⟨hname, httlr, htype, hdne, hdtok, htrack, hcomr⟩ := hwf
  have hrd := render_data htype hdne
  have hnamedt : dataTokB r.DomainName = true := nameTok_dataTok hname
  obtain ⟨hnm1, hnm2⟩ := dataTok_not_sep hnamedt
  have hnmstep : trackStep false r.DomainName = false := nameTok_trackStep hname false
  set com := (if r.Comment = "" then none else some r.Comment) with hcomdef
  have hcomToks : (if r.Comment ≠ "" then [r.Comment] else []) = com.toList := by
    rw [hcomdef]
    by_cases hrc : r.Comment = "" <;> simp [hrc]
  have hcomOK : ∀ c, com = some c → commentTokB c = true := by
    intro c hcc
    rw [hcomdef] at hcc
    by_cases hrc : r.Comment = ""
    · rw [if_pos hrc] at hcc
      cases hcc
    · rw [if_neg hrc] at hcc
      injection hcc with hcc2
      subst hcc2
      rcases hcomr with h | h
      · exact absurd h hrc
      · exact h
  have hcomGet : com.getD "" = r.Comment := by
    rw [hcomdef]
    by_cases hrc : r.Comment = "" <;> simp [hrc]
  refine ⟨endState com, ?_⟩
  show NextF ((Record.render r).data.length + 1) SState.Default ((Record.render r).data)
      = NextResult.ok r (endState com) []
  rw [hrd]
  by_cases httlv : r.TimeToLive = -1
  · by_cases hclsv : r.Class = RecordClass.UNKNOWN
    · -- neither TTL nor class rendered
      have hmid : midToks r = r.RType.toStr :: (r.Data ++ com.toList) := by
        unfold midToks
        rw [hcomToks, if_neg (by simp [httlv]), if_neg (by simp [hclsv])]
        simp
      rw [hmid]
      have hl1 := flatJoin_cons_length r.RType.toStr (r.Data ++ com.toList)
      have hlex0 : nextToken SState.Default
          (r.DomainName.data ++ flatJoin (r.RType.toStr :: (r.Data ++ com.toList))) ""
          = TokenResult.tok r.DomainName SState.Default
              (flatJoin (r.RType.toStr :: (r.Data ++ com.toList))) :=
        lexFirst _ _ hnamedt hnmstep
      rw [NextF_step (skipLeading_step (by omega) hlex0 hnm1 hnm2)]
      rw [typeAndData htype _ _ false false (fun _ => rfl) (fun _ => rfl)
        hdtok htrack hdne hcomOK (by simp only [List.length_append]; omega)]
      rw [hcomGet]
      congr 1
      rcases r with ⟨dn, ttl, cls, ty, da, cm⟩
      simp_all
    · -- class rendered, no TTL
      have hmid : midToks r
          = r.Class.toStr :: r.RType.toStr :: (r.Data ++ com.toList) := by
        unfold midToks
        rw [hcomToks, if_neg (by simp [httlv]), if_pos hclsv]
        simp
      rw [hmid]
      have hclsw : wordTokB r.Class.toStr = true := classStr_word hclsv
      have hl1 := flatJoin_cons_length r.Class.toStr
        (r.RType.toStr :: (r.Data ++ com.toList))
      have hl2 := flatJoin_cons_length r.RType.toStr (r.Data ++ com.toList)
      have hlex0 : nextToken SState.Default
          (r.DomainName.data
            ++ flatJoin (r.Class.toStr :: r.RType.toStr :: (r.Data ++ com.toList))) ""
          = TokenResult.tok r.DomainName SState.Default
              (flatJoin (r.Class.toStr :: r.RType.toStr :: (r.Data ++ com.toList))) :=
        lexFirst _ _ hnamedt hnmstep
      rw [NextF_step (skipLeading_step (by omega) hlex0 hnm1 hnm2)]
      have hlex1 : nextToken SState.Default
          (flatJoin (r.Class.toStr :: r.RType.toStr :: (r.Data ++ com.toList))) ""
          = TokenResult.tok r.Class.toStr SState.Default
              (flatJoin (r.RType.toStr :: (r.Data ++ com.toList))) :=
        lexStep_cons _ _ (nameTok_dataTok (Or.inl hclsw))
          (nameTok_trackStep (Or.inl hclsw) false)
      rw [nextLoop_step_class (by omega) hlex1 (classStr_noUint hclsv)
        (classStr_parse hclsv) _ false rfl]
      rw [typeAndData htype _ _ true false (fun _ => rfl)
        (fun hcon => absurd hcon (by decide))
        hdtok htrack hdne hcomOK (by simp only [List.length_append]; omega)]
      rw [hcomGet]
      congr 1
      rcases r with ⟨dn, ttl, cls, ty, da, cm⟩
      simp_all
  · have httlrange : 0 ≤ r.TimeToLive ∧ r.TimeToLive < 2 ^ 32 := by
      rcases httlr with h | h
      · exact absurd h httlv
      · exact h
    have httlw : wordTokB (intRepr r.TimeToLive) = true := intRepr_word httlrange.1
    have hcast : ((r.TimeToLive.toNat : Nat) : Int) = r.TimeToLive :=
      Int.toNat_of_nonneg httlrange.1
    by_cases hclsv : r.Class = RecordClass.UNKNOWN
    · -- TTL rendered, no class
      have hmid : midToks r
          = intRepr r.TimeToLive :: r.RType.toStr :: (r.Data ++ com.toList) := by
        unfold midToks
        rw [hcomToks, if_pos httlv, if_neg (by simp [hclsv])]
        simp
      rw [hmid]
      have hl1 := flatJoin_cons_length (intRepr r.TimeToLive)
        (r.RType.toStr :: (r.Data ++ com.toList))
      have hl2 := flatJoin_cons_length r.RType.toStr (r.Data ++ com.toList)
      have hlex0 : nextToken SState.Default
          (r.DomainName.data
            ++ flatJoin (intRepr r.TimeToLive :: r.RType.toStr :: (r.Data ++ com.toList))) ""
          = TokenResult.tok r.DomainName SState.Default
              (flatJoin (intRepr r.TimeToLive :: r.RType.toStr :: (r.Data ++ com.toList))) :=
        lexFirst _ _ hnamedt hnmstep
      rw [NextF_step (skipLeading_step (by omega) hlex0 hnm1 hnm2)]
      have hlex1 : nextToken SState.Default
          (flatJoin (intRepr r.TimeToLive :: r.RType.toStr :: (r.Data ++ com.toList))) ""
          = TokenResult.tok (intRepr r.TimeToLive) SState.Default
              (flatJoin (r.RType.toStr :: (r.Data ++ com.toList))) :=
        lexStep_cons _ _ (nameTok_dataTok (Or.inl httlw))
          (nameTok_trackStep (Or.inl httlw) false)
      rw [nextLoop_step_ttl (by omega) hlex1
        (parseUint32_intRepr httlrange.1 httlrange.2) _ false false]
      rw [typeAndData htype _ _ false true
        (fun hcon => absurd hcon (by decide)) (fun _ => rfl)
        hdtok htrack hdne hcomOK (by simp only [List.length_append]; omega)]
      rw [hcomGet]
      congr 1
      rcases r with ⟨dn, ttl, cls, ty, da, cm⟩
      simp_all
    · -- TTL and class both rendered
      have hclsw : wordTokB r.Class.toStr = true := classStr_word hclsv
      have hmid : midToks r
          = intRepr r.TimeToLive :: r.Class.toStr :: r.RType.toStr
              :: (r.Data ++ com.toList) := by
        unfold midToks
        rw [hcomToks, if_pos httlv, if_pos hclsv]
        simp
      rw [hmid]
      have hl1 := flatJoin_cons_length (intRepr r.TimeToLive)
        (r.Class.toStr :: r.RType.toStr :: (r.Data ++ com.toList))
      have hl2 := flatJoin_cons_length r.Class.toStr
        (r.RType.toStr :: (r.Data ++ com.toList))
      have hl3 := flatJoin_cons_length r.RType.toStr (r.Data ++ com.toList)
      have hlex0 : nextToken SState.Default
          (r.DomainName.data ++ flatJoin (intRepr r.TimeToLive :: r.Class.toStr
            :: r.RType.toStr :: (r.Data ++ com.toList))) ""
          = TokenResult.tok r.DomainName SState.Default
              (flatJoin (intRepr r.TimeToLive :: r.Class.toStr :: r.RType.toStr
                :: (r.Data ++ com.toList))) :=
        lexFirst _ _ hnamedt hnmstep
      rw [NextF_step (skipLeading_step (by omega) hlex0 hnm1 hnm2)]
      have hlex1 : nextToken SState.Default
          (flatJoin (intRepr r.TimeToLive :: r.Class.toStr :: r.RType.toStr
            :: (r.Data ++ com.toList))) ""
          = TokenResult.tok (intRepr r.TimeToLive) SState.Default
              (flatJoin (r.Class.toStr :: r.RType.toStr :: (r.Data ++ com.toList))) :=
        lexStep_cons _ _ (nameTok_dataTok (Or.inl httlw))
          (nameTok_trackStep (Or.inl httlw) false)
      rw [nextLoop_step_ttl (by omega) hlex1
        (parseUint32_intRepr httlrange.1 httlrange.2) _ false false]
      have hlex2 : nextToken SState.Default
          (flatJoin (r.Class.toStr :: r.RType.toStr :: (r.Data ++ com.toList))) ""
          = TokenResult.tok r.Class.toStr SState.Default
              (flatJoin (r.RType.toStr :: (r.Data ++ com.toList))) :=
        lexStep_cons _ _ (nameTok_dataTok (Or.inl hclsw))
          (nameTok_trackStep (Or.inl hclsw) false)
      have hF2 : 0 < (r.DomainName.data ++ flatJoin (intRepr r.TimeToLive :: r.Class.toStr
          :: r.RType.toStr :: (r.Data ++ com.toList))).length + 1 - 1 := by
        simp only [List.length_append, hl1, hl2, hl3]
        generalize r.DomainName.data.length = nn
        omega
      rw [nextLoop_step_class_ttl hF2 hlex2 (classStr_parse hclsv) _ false]
      have hbound : (flatJoin (r.RType.toStr :: (r.Data ++ com.toList))).length <
          (r.DomainName.data ++ flatJoin (intRepr r.TimeToLive :: r.Class.toStr
            :: r.RType.toStr :: (r.Data ++ com.toList))).length + 1 - 1 - 1 := by
        simp only [List.length_append, hl1, hl2, hl3]
        generalize r.DomainName.data.length = nn
        omega
      rw [typeAndData htype _ _ true true
        (fun hcon => absurd hcon (by decide)) (fun hcon => absurd hcon (by decide))
        hdtok htrack hdne hcomOK hbound]
      rw [hcomGet]
      congr 1
      rcases r with ⟨dn, ttl, cls, ty, da, cm⟩
      simp_all

/-- Claim C4 witness: a concrete well-formed record round-trips. -/
theorem claim_C4_witness :
    ∃ st, scanNext (Record.render
      { DomainName := "example.com.", TimeToLive := 3600,
        Class := RecordClass.IN, RType := RecordType.A,
        Data := ["192.0.2.1"], Comment := "; host" })
      = NextResult.ok
          { DomainName := "example.com.", TimeToLive := 3600,
            Class := RecordClass.IN, RType := RecordType.A,
            Data := ["192.0.2.1"], Comment := "; host" } st [] :=
  claim_C4 _ (by
    unfold Record.WF
    refine ⟨Or.inl (by decide), Or.inr (by constructor <;> decide),
      by decide, by decide, ?_, by decide, Or.inr (by decide)⟩
    intro t ht
    simp only [List.mem_singleton] at ht
    subst ht
    decide)

/-- Claim C10: every record successfully returned by `Scanner.Next` has
`TimeToLive = -1` (the "absent" sentinel) or a value in the unsigned 32-bit
range; a numeric token that does not fit 32 unsigned bits is never captured
as the TTL. -/
theorem claim_C10 :
    ∀ s r st rest, scanNext s = NextResult.ok r st rest →
      r.TimeToLive = -1 ∨ (0 ≤ r.TimeToLive ∧ r.TimeToLive ≤ 2 ^ 32 - 1) := by
  intro s r st rest h
  unfold scanNext NextF at h
  cases hsk : skipLeading (s.data.length + 1) SState.Default s.data with
  | errR m => rw [hsk] at h; simp at h
  | eofR stE => rw [hsk] at h; simp at h
  | tok name st2 rest2 =>
    rw [hsk] at h
    exact nextLoop_ttl_inv _ _ _ _ _ _ _ _ _ _ _ (Or.inl rfl) h

/-- Claim C10 witness: the range statement applied to a concrete parse. -/
theorem claim_C10_witness :
    ({ DomainName := "example.com.", TimeToLive := 3600,
       Class := RecordClass.IN, RType := RecordType.A,
       Data := ["192.0.2.1"], Comment := "" } : Record).TimeToLive = -1
    ∨ (0 ≤ ({ DomainName := "example.com.", TimeToLive := 3600,
              Class := RecordClass.IN, RType := RecordType.A,
              Data := ["192.0.2.1"], Comment := "" } : Record).TimeToLive
       ∧ ({ DomainName := "example.com.", TimeToLive := 3600,
            Class := RecordClass.IN, RType := RecordType.A,
            Data := ["192.0.2.1"], Comment := "" } : Record).TimeToLive
          ≤ 2 ^ 32 - 1) :=
  claim_C10 "example.com. 3600 IN A 192.0.2.1\n" _ SState.Space [] (by decide)

end ZoneParse
